import Mathlib

/-!
Verification of the HanwenPDF composer (`src/convert_s2t.py`).

Shallow embedding of the story-building loop of `convert_s2t_txt_to_pdf`
(title forcing, chapter-heading classification, page-break policy), of the
two-pass `PageNumCanvas` (deferred bookmark buffering, footer stamping) and
of the `OutlineDocTemplate.afterFlowable` hook.

Input lines are modelled as the Python variable `lines`, i.e. after the
per-line `strip()` and the OpenCC text conversion performed at read time
(`lines = [cc.convert(line.strip()) for line in f.readlines()]`); a blank
line is therefore the empty string, matching Python's `if not line`.
-/

namespace HanwenPDF

/-- Characters of the literal part of the regex character class
`[一二三四五六七八九十百千万\d]` in `chapter_pattern` (src line 219). -/
def isChineseNumeral (c : Char) : Bool :=
  c == '一' || c == '二' || c == '三' || c == '四' || c == '五' ||
  c == '六' || c == '七' || c == '八' || c == '九' || c == '十' ||
  c == '百' || c == '千' || c == '万'

/-- Code-point ranges of Unicode general category Nd (decimal digits),
the set matched by Python's `\d` on `str` patterns (Unicode 15.0). -/
def ndRanges : List (Nat × Nat) :=
  [(0x30, 0x39), (0x660, 0x669), (0x6F0, 0x6F9), (0x7C0, 0x7C9),
   (0x966, 0x96F), (0x9E6, 0x9EF), (0xA66, 0xA6F), (0xAE6, 0xAEF),
   (0xB66, 0xB6F), (0xBE6, 0xBEF), (0xC66, 0xC6F), (0xCE6, 0xCEF),
   (0xD66, 0xD6F), (0xDE6, 0xDEF), (0xE50, 0xE59), (0xED0, 0xED9),
   (0xF20, 0xF29), (0x1040, 0x1049), (0x1090, 0x1099), (0x17E0, 0x17E9),
   (0x1810, 0x1819), (0x1946, 0x194F), (0x19D0, 0x19D9), (0x1A80, 0x1A89),
   (0x1A90, 0x1A99), (0x1B50, 0x1B59), (0x1BB0, 0x1BB9), (0x1C40, 0x1C49),
   (0x1C50, 0x1C59), (0xA620, 0xA629), (0xA8D0, 0xA8D9), (0xA900, 0xA909),
   (0xA9D0, 0xA9D9), (0xA9F0, 0xA9F9), (0xAA50, 0xAA59), (0xABF0, 0xABF9),
   (0xFF10, 0xFF19), (0x104A0, 0x104A9), (0x10D30, 0x10D39),
   (0x11066, 0x1106F), (0x110F0, 0x110F9), (0x11136, 0x1113F),
   (0x111D0, 0x111D9), (0x112F0, 0x112F9), (0x11450, 0x11459),
   (0x114D0, 0x114D9), (0x11650, 0x11659), (0x116C0, 0x116C9),
   (0x11730, 0x11739), (0x118E0, 0x118E9), (0x11950, 0x11959),
   (0x11C50, 0x11C59), (0x11D50, 0x11D59), (0x11DA0, 0x11DA9),
   (0x11F50, 0x11F59), (0x16A60, 0x16A69), (0x16AC0, 0x16AC9),
   (0x16B50, 0x16B59), (0x1D7CE, 0x1D7FF), (0x1E140, 0x1E149),
   (0x1E2F0, 0x1E2F9), (0x1E4F0, 0x1E4F9), (0x1E950, 0x1E959),
   (0x1FBF0, 0x1FBF9)]

/-- Unicode decimal digit: Python's `\d` for `str` patterns. -/
def isPyDigit (c : Char) : Bool :=
  ndRanges.any (fun r => decide (r.1 ≤ c.toNat) && decide (c.toNat ≤ r.2))

/-- One character of the class `[一二三四五六七八九十百千万\d]`. -/
def isNumChar (c : Char) : Bool := isChineseNumeral c || isPyDigit c

/-- Scanner for the part `[一二三四五六七八九十百千万\d]+回` of
`chapter_pattern`: accepts lists that begin with one or more class
characters immediately followed by `回` (backtracking is irrelevant here
because `回` is not in the class; see `scanNum_iff`). -/
def scanNum : List Char → Bool
  | [] => false
  | c :: rest => isNumChar c && (rest.head? == some '回' || scanNum rest)

/-- Python `chapter_pattern.match(line)` (anchored at the start of the
line) for `chapter_pattern = re.compile(...)` at src line 219. -/
def chapterMatch (line : String) : Bool :=
  match line.data with
  | [] => false
  | c :: rest => c == '第' && scanNum rest

/-- Paragraph styles defined in `convert_s2t_txt_to_pdf` (src lines
183-215): `title_style`, `chapter_style`, `body_style`. -/
inductive StyleKind where
  | titleStyle
  | chapterStyle
  | bodyStyle
deriving DecidableEq, Repr

/-- Story element (platypus flowable) appended by the loop at src lines
221-250. `para markup style chapter` is a `Paragraph`; `chapter` carries
the custom attributes `(chapter_title, chapter_key)` set on chapter
paragraphs (`is_chapter`); `spacer` is `Spacer(width, height)`. -/
inductive Flowable where
  | para (markup : String) (style : StyleKind) (chapter : Option (String × String))
  | spacer (width height : Nat)
  | pageBreak
deriving DecidableEq, Repr

/-- Markup `f"<b>{line}</b>"` used for title and chapter paragraphs. -/
def bold (line : String) : String := "<b>" ++ line ++ "</b>"

/-- Bookmark key `f"chap_{i}"` for the heading at document index `i`. -/
def chapKey (i : Nat) : String := "chap_" ++ Nat.repr i

/-- One iteration of the story loop (src lines 221-250) for the line at
document index `i` given the current `first_chapter_found` flag: returns
the flowables appended and the updated flag. The blank test comes first
(`if not line: continue`), then the title test `i == 0`, then
`chapter_pattern.match(line)`. -/
def emitLine (i : Nat) (line : String) (firstChapterFound : Bool) :
    List Flowable × Bool :=
  if line == "" then ([], firstChapterFound)
  else if i == 0 then
    ([.para (bold line) .titleStyle none, .pageBreak], firstChapterFound)
  else if chapterMatch line then
    ((if firstChapterFound then [Flowable.pageBreak] else []) ++
      [.para (bold line) .chapterStyle (some (line, chapKey i))], true)
  else
    ([.para line .bodyStyle none, .spacer 1 6], firstChapterFound)

/-- The story loop from index `i` with flag `flag`. -/
def buildStoryAux : Nat → Bool → List String → List Flowable
  | _, _, [] => []
  | i, flag, line :: rest =>
    (emitLine i line flag).1 ++ buildStoryAux (i + 1) (emitLine i line flag).2 rest

/-- The complete `story` list built by `convert_s2t_txt_to_pdf` from the
(stripped, converted) input lines. -/
def buildStory (lines : List String) : List Flowable :=
  buildStoryAux 0 false lines

/-- Modelled from the spec: the explicit-pagination semantics of the
platypus driver (`doc.build`), an external collaborator not under `src/`.
Per spec section 4.2 step 4, an explicit page break always starts a new
page; per the driver's end-of-build behaviour a trailing break does not
emit an extra page. Overflow-driven pagination depends on opaque glyph
metrics (out of scope, spec section 1) and is not modelled. -/
def pagesOfAux (cur : List Flowable) : List Flowable → List (List Flowable)
  | [] => if cur.isEmpty then [] else [cur]
  | Flowable.pageBreak :: rest => cur :: pagesOfAux [] rest
  | f :: rest => pagesOfAux (cur ++ [f]) rest

/-- Modelled from the spec: pages of a story, split at explicit breaks. -/
def pagesOf (story : List Flowable) : List (List Flowable) := pagesOfAux [] story

/-- Modelled from the spec: the `EmptyDocument` policy of spec section 7
(zero non-blank lines produce a single, empty title page rather than a
failure). -/
def docPages (story : List Flowable) : List (List Flowable) :=
  let ps := pagesOf story
  if ps.isEmpty then [[]] else ps

/-- Eligible-page TOTAL: physical pages minus the exempt title page. -/
def eligibleTotal (ps : List (List Flowable)) : Nat := ps.length - 1

/-- Deferred navigation instruction buffered by `PageNumCanvas` (the
tuples `('bookmark', key)` and `('outline', title, key, level, closed)`
appended to `_current_page_bookmarks`, src lines 66-73). -/
inductive BEntry where
  | bookmark (key : String)
  | outline (title : String) (key : String) (level : Nat) (closed : Bool)
deriving DecidableEq, Repr

/-- Abstract drawing operation accumulated in the canvas's per-page
`_code` buffer. `rule` is the footer separator of `draw_page_number`
(the `setFont`/`setStrokeColorRGB`/`setLineWidth`/`line` sequence, src
lines 110-119); `stamp k total` is the
`drawCentredString(..., f"Page {k} of {total}")` call (src lines 121-125);
`text` and `gap` stand for the opaque content the driver draws for
paragraphs and spacers. -/
inductive DrawOp where
  | text (markup : String) (style : StyleKind)
  | gap (width height : Nat)
  | rule
  | stamp (k : Int) (total : Int)
deriving DecidableEq, Repr

/-- Event reaching the underlying `canvas.Canvas` (the `super()` calls
of `PageNumCanvas`): a replayed bookmark, a replayed outline entry, a
physical page commit `super().showPage()` carrying the page's final
`_code`, or the final `super().save()`. -/
inductive PrimOp where
  | primBookmark (key : String)
  | primOutline (title : String) (key : String) (level : Nat) (closed : Bool)
  | primShowPage (code : List DrawOp)
  | primSave
deriving DecidableEq, Repr

/-- The snapshot `page_state = dict(self.__dict__)` captured by
`PageNumCanvas.showPage` (src lines 75-88): the page number, the page's
accumulated `_code`, the `_current_page_bookmarks` list as captured by the
dict copy, and the `'_bookmarks'` entry attached for this page.
`_saved_page_states` (and `pages`) are popped from the snapshot, so a
snapshot never contains the history of previously saved page states. -/
structure PageSt where
  pageNumber : Nat
  code : List DrawOp
  curBuf : List BEntry
  bookmarks : List BEntry
deriving DecidableEq, Repr

/-- State of a `PageNumCanvas`: the fields of `self.__dict__` relevant to
the two-pass logic, plus the trace of events sent to the underlying
canvas. reportlab initialises `_pageNumber` to 1. -/
structure CanvasSt where
  savedPageStates : List PageSt
  currentPageBookmarks : List BEntry
  pageNumber : Nat
  code : List DrawOp
  trace : List PrimOp
deriving DecidableEq, Repr

/-- Freshly constructed `PageNumCanvas` (src lines 60-64). -/
def initCanvas : CanvasSt :=
  { savedPageStates := [], currentPageBookmarks := [], pageNumber := 1,
    code := [], trace := [] }

/-- `PageNumCanvas.bookmarkPage` (src lines 67-69): append to the per-page
buffer instead of calling `super()`. -/
def bookmarkPage (key : String) (s : CanvasSt) : CanvasSt :=
  { s with currentPageBookmarks := s.currentPageBookmarks ++ [.bookmark key] }

/-- `PageNumCanvas.addOutlineEntry` (src lines 71-73): append to the
per-page buffer instead of calling `super()`. -/
def addOutlineEntry (title key : String) (level : Nat) (closed : Bool)
    (s : CanvasSt) : CanvasSt :=
  { s with currentPageBookmarks :=
      s.currentPageBookmarks ++ [.outline title key level closed] }

/-- A drawing call on the canvas: appends to the per-page `_code`. -/
def drawOp (d : DrawOp) (s : CanvasSt) : CanvasSt :=
  { s with code := s.code ++ [d] }

/-- `PageNumCanvas.showPage` (src lines 75-88): capture the snapshot
(current page only), attach this page's buffered bookmarks, reset the
per-page buffer, and `_startPage` (which clears `_code` and increments
`_pageNumber`). No event reaches the underlying canvas. -/
def showPage (s : CanvasSt) : CanvasSt :=
  { s with
    savedPageStates := s.savedPageStates ++
      [{ pageNumber := s.pageNumber, code := s.code,
         curBuf := s.currentPageBookmarks, bookmarks := s.currentPageBookmarks }],
    currentPageBookmarks := [],
    pageNumber := s.pageNumber + 1,
    code := [] }

/-- Pass-1 call on the `PageNumCanvas` (issued by the platypus driver and
the `afterFlowable` hook while `doc.build` runs). -/
inductive Pass1Op where
  | opDraw (d : DrawOp)
  | opBookmark (key : String)
  | opOutline (title key : String) (level : Nat) (closed : Bool)
  | opShowPage
deriving DecidableEq, Repr

/-- Dispatch one pass-1 call to the corresponding canvas method. -/
def stepPass1 (s : CanvasSt) : Pass1Op → CanvasSt
  | .opDraw d => drawOp d s
  | .opBookmark k => bookmarkPage k s
  | .opOutline t k l c => addOutlineEntry t k l c s
  | .opShowPage => showPage s

/-- Run a sequence of pass-1 calls on a canvas state. -/
def runPassOne (ops : List Pass1Op) (s : CanvasSt) : CanvasSt :=
  ops.foldl stepPass1 s

/-- `PageNumCanvas.draw_page_number` (src lines 109-125): draws the
separator rule and the stamp `f"Page {current_page} of {total_adjusted}"`
with `current_page = self._pageNumber - 1` and
`total_adjusted = page_count - 1` into the current page's code. -/
def drawPageNumber (pageCount : Nat) (s : CanvasSt) : CanvasSt :=
  { s with code := s.code ++
      [DrawOp.rule,
       DrawOp.stamp ((s.pageNumber : Int) - 1) ((pageCount : Int) - 1)] }

/-- The `self.__dict__.update(page)` in `PageNumCanvas.save`: restores the
captured page's fields (page number, code, bookmark buffer). -/
def restoreState (p : PageSt) (s : CanvasSt) : CanvasSt :=
  { s with pageNumber := p.pageNumber, code := p.code,
           currentPageBookmarks := p.curBuf }

/-- Replay of one buffered entry by the dispatch at src lines 96-100:
`super().bookmarkPage` / `super().addOutlineEntry`. -/
def replayEntry (e : BEntry) : PrimOp :=
  match e with
  | .bookmark k => .primBookmark k
  | .outline t k l c => .primOutline t k l c

/-- `super().showPage()` inside `PageNumCanvas.save`: commits the current
page's code to the underlying canvas and starts a new page. -/
def superShowPage (s : CanvasSt) : CanvasSt :=
  { s with trace := s.trace ++ [.primShowPage s.code], code := [],
           pageNumber := s.pageNumber + 1 }

/-- One iteration of the loop in `PageNumCanvas.save` (src lines 92-105)
for a captured page: restore the snapshot, replay its bookmarks in
buffered order, stamp the footer unless the restored `_pageNumber` is 1,
then commit the physical page. -/
def savePage (count : Nat) (s : CanvasSt) (p : PageSt) : CanvasSt :=
  let s1 := restoreState p s
  let s2 := { s1 with trace := s1.trace ++ p.bookmarks.map replayEntry }
  let s3 := if 1 < s2.pageNumber then drawPageNumber count s2 else s2
  superShowPage s3

/-- `PageNumCanvas.save` (src lines 90-107): pass 2. `page_count` is the
number of captured page states; each captured page is replayed and
committed in order, then `super().save()` finalises the document. -/
def canvasSave (s : CanvasSt) : CanvasSt :=
  let count := s.savedPageStates.length
  let s1 := s.savedPageStates.foldl (savePage count) s
  { s1 with trace := s1.trace ++ [.primSave] }

/-- Modelled from the spec: the pass-1 canvas calls the platypus driver
issues for one flowable, an external collaborator not under `src/`. A
paragraph is drawn and then — only if it carries the `is_chapter`
attributes — the `OutlineDocTemplate.afterFlowable` hook (src lines
130-141) calls `bookmarkPage(chapter_key)` and then
`addOutlineEntry(chapter_title, chapter_key, level=0, closed=True)`; a
spacer is drawn; an explicit page break ends the current page. -/
def flowableOps : Flowable → List Pass1Op
  | .para m st none => [.opDraw (.text m st)]
  | .para m st (some (t, k)) =>
    [.opDraw (.text m st), .opBookmark k, .opOutline t k 0 true]
  | .spacer w h => [.opDraw (.gap w h)]
  | .pageBreak => [.opShowPage]

/-- Modelled from the spec: whether the driver ends pass 1 with a final
`showPage` (a nonempty story not already ended by an explicit break). -/
def needsFinalShow (story : List Flowable) : Bool :=
  !story.isEmpty && story.getLast? != some Flowable.pageBreak

/-- Modelled from the spec: the full pass-1 call sequence for a story. -/
def passOneOps (story : List Flowable) : List Pass1Op :=
  (story.map flowableOps).flatten ++
    (if needsFinalShow story then [Pass1Op.opShowPage] else [])

/-- The whole pipeline on converted, stripped lines: build the story,
run pass 1 on a fresh `PageNumCanvas`, then run `save` (pass 2). -/
def renderDoc (lines : List String) : CanvasSt :=
  canvasSave (runPassOne (passOneOps (buildStory lines)) initCanvas)

/-- Whether the loop classifies the line at index `i` as a chapter
heading: not the title position, not blank, and matching the pattern. -/
def isHeadingLine (i : Nat) (line : String) : Bool :=
  i != 0 && line != "" && chapterMatch line

/-- Indexed heading lines `(i, line)` of the input from index `i` on. -/
def headingsFrom : Nat → List String → List (Nat × String)
  | _, [] => []
  | i, line :: rest =>
    (if isHeadingLine i line then [(i, line)] else []) ++
      headingsFrom (i + 1) rest

/-- The `(chapter_title, chapter_key)` attribute pairs of the chapter
paragraphs of a story, in story order. -/
def chapterEntries (story : List Flowable) : List (String × String) :=
  story.filterMap (fun f =>
    match f with
    | .para _ _ (some e) => some e
    | _ => none)

/-- Whether a flowable is a chapter-style paragraph. -/
def isChapterPara (f : Flowable) : Bool :=
  match f with
  | .para _ .chapterStyle _ => true
  | _ => false

/-- Whether a list of flowables contains a chapter-style paragraph. -/
def hasChapterPara (l : List Flowable) : Bool := l.any isChapterPara

/-- Number of explicit breaks contributed by the title rule: one iff the
line at index 0 exists and is non-blank. -/
def titleBreakCount (lines : List String) : Nat :=
  match lines with
  | [] => 0
  | l0 :: _ => if l0 = "" then 0 else 1

/-- Erase the numeric part of chapter keys (used to compare stories up to
the document indices embedded in `chap_{i}` ids). -/
def eraseKey : Flowable → Flowable
  | .para m st (some (t, _)) => .para m st (some (t, ""))
  | f => f

/-- A story with all chapter keys erased. -/
def eraseKeys (story : List Flowable) : List Flowable := story.map eraseKey

/-- Deferred entries contributed by one pass-1 call. -/
def opEntries : Pass1Op → List BEntry
  | .opBookmark k => [.bookmark k]
  | .opOutline t k l c => [.outline t k l c]
  | _ => []

/-- Segments of deferred entries cut at each `showPage`, starting from a
buffer `buf`: first component lists, page by page, the entries captured
with that page; second component is the buffer left after the last
`showPage`. -/
def segEntries (buf : List BEntry) : List Pass1Op → List (List BEntry) × List BEntry
  | [] => ([], buf)
  | .opShowPage :: rest =>
    ((segEntries [] rest).1.cons buf, (segEntries [] rest).2)
  | op :: rest => segEntries (buf ++ opEntries op) rest

/-- The bookmark and outline events of a trace, in order. -/
def bookmarkEventsOf (t : List PrimOp) : List PrimOp :=
  t.filter (fun op =>
    match op with
    | .primBookmark _ => true
    | .primOutline _ _ _ _ => true
    | _ => false)

/-- The per-page emission of `PageNumCanvas.save` for one captured page:
its buffered entries replayed in order, then the physical commit of the
page's code, with the footer rule and stamp appended unless the page
number is 1. -/
def pageEmission (count : Nat) (p : PageSt) : List PrimOp :=
  p.bookmarks.map replayEntry ++
    [PrimOp.primShowPage (p.code ++
      (if 1 < p.pageNumber then
        [DrawOp.rule, DrawOp.stamp ((p.pageNumber : Int) - 1) ((count : Int) - 1)]
       else []))]

/-- Chapter-heading test written from the spec's words for claim C6: the
marker `第`, then one or more numerals where a numeral is an Arabic digit
`0`-`9` or one of the Chinese numeral characters, then the unit `回`. -/
def isSpecNumeral (c : Char) : Bool :=
  isChineseNumeral c || (decide ('0' ≤ c) && decide (c ≤ '9'))

/-- Scanner for the spec-worded pattern of claim C6. -/
def specScanNum : List Char → Bool
  | [] => false
  | c :: rest => isSpecNumeral c && (rest.head? == some '回' || specScanNum rest)

/-- The chapter-heading pattern as worded by claim C6 (marker, then one or
more Arabic digits or listed Chinese numerals, then the unit glyph). -/
def specChapterMatch (line : String) : Bool :=
  match line.data with
  | [] => false
  | c :: rest => c == '第' && specScanNum rest

/-- Decimal value of a digit character. -/
def digitVal (c : Char) : Nat := c.toNat - 48

/-- Value of a big-endian list of decimal digit characters. -/
def valOfDigits : List Char → Nat
  | [] => 0
  | c :: cs => digitVal c * 10 ^ cs.length + valOfDigits cs

theorem digitVal_digitChar (d : Nat) (hd : d < 10) :
    digitVal (Nat.digitChar d) = d := by
  interval_cases d <;> rfl

theorem toDigitsCore_acc (fuel n : Nat) (ds : List Char) :
    Nat.toDigitsCore 10 fuel n ds = Nat.toDigitsCore 10 fuel n [] ++ ds := by
  induction fuel generalizing n ds with
  | zero => simp [Nat.toDigitsCore]
  | succ f ih =>
    simp only [Nat.toDigitsCore]
    by_cases h : n / 10 = 0
    · simp [h]
    · simp only [h, if_false]
      rw [ih (n / 10) [Nat.digitChar (n % 10)],
        ih (n / 10) (Nat.digitChar (n % 10) :: ds)]
      simp

theorem toDigitsCore_fuel (n : Nat) :
    ∀ f g : Nat, n < f → n < g →
      Nat.toDigitsCore 10 f n [] = Nat.toDigitsCore 10 g n [] := by
  induction n using Nat.strong_induction_on with
  | _ n ih =>
    intro f g hf hg
    match f, g with
    | f + 1, g + 1 =>
      simp only [Nat.toDigitsCore]
      by_cases h : n / 10 = 0
      · simp [h]
      · simp only [h, if_false]
        rw [toDigitsCore_acc f, toDigitsCore_acc g]
        have hn : 0 < n := by
          rcases Nat.eq_zero_or_pos n with h0 | h0
          · exact absurd (by simp [h0]) h
          · exact h0
        have hlt : n / 10 < n := Nat.div_lt_self hn (by omega)
        rw [ih (n / 10) hlt f g (by omega) (by omega)]

theorem toDigits_small (n : Nat) (h : n < 10) :
    Nat.toDigits 10 n = [Nat.digitChar n] := by
  unfold Nat.toDigits
  simp only [Nat.toDigitsCore]
  simp [Nat.div_eq_of_lt h, Nat.mod_eq_of_lt h]

theorem toDigits_split (n : Nat) (h : 10 ≤ n) :
    Nat.toDigits 10 n = Nat.toDigits 10 (n / 10) ++ [Nat.digitChar (n % 10)] := by
  have h10 : ¬ n / 10 = 0 := by
    have := Nat.div_pos h (by omega)
    omega
  have hlt : n / 10 < n := Nat.div_lt_self (by omega) (by omega)
  have step : Nat.toDigits 10 n
      = Nat.toDigitsCore 10 n (n / 10) [Nat.digitChar (n % 10)] := by
    show Nat.toDigitsCore 10 (n + 1) n [] = _
    simp only [Nat.toDigitsCore]
    simp [h10]
  rw [step, toDigitsCore_acc]
  congr 1
  show Nat.toDigitsCore 10 n (n / 10) []
      = Nat.toDigitsCore 10 (n / 10 + 1) (n / 10) []
  exact toDigitsCore_fuel (n / 10) n (n / 10 + 1) hlt (by omega)

theorem valOfDigits_append_digit (xs : List Char) (c : Char) :
    valOfDigits (xs ++ [c]) = valOfDigits xs * 10 + digitVal c := by
  induction xs with
  | nil => simp [valOfDigits]
  | cons x xs ih =>
    have hl : (xs ++ [c]).length = xs.length + 1 := by simp
    calc valOfDigits (x :: xs ++ [c])
        = digitVal x * 10 ^ (xs ++ [c]).length + valOfDigits (xs ++ [c]) := rfl
      _ = digitVal x * 10 ^ (xs.length + 1) + (valOfDigits xs * 10 + digitVal c) := by
          rw [hl, ih]
      _ = (digitVal x * 10 ^ xs.length + valOfDigits xs) * 10 + digitVal c := by ring
      _ = valOfDigits (x :: xs) * 10 + digitVal c := rfl

theorem valOfDigits_toDigits (n : Nat) :
    valOfDigits (Nat.toDigits 10 n) = n := by
  induction n using Nat.strong_induction_on with
  | _ n ih =>
    by_cases h : n < 10
    · rw [toDigits_small n h]
      simp [valOfDigits, digitVal_digitChar n h]
    · have h10 : 10 ≤ n := le_of_not_lt h
      rw [toDigits_split n h10, valOfDigits_append_digit,
        ih (n / 10) (Nat.div_lt_self (by omega) (by omega)),
        digitVal_digitChar (n % 10) (Nat.mod_lt n (by omega))]
      omega

theorem repr_injective : Function.Injective Nat.repr := by
  intro m n h
  have hd : Nat.toDigits 10 m = Nat.toDigits 10 n := by
    have := congrArg String.data h
    simpa [Nat.repr, List.asString] using this
  have := congrArg valOfDigits hd
  simpa [valOfDigits_toDigits] using this

theorem chapKey_injective : Function.Injective chapKey := by
  intro m n h
  apply repr_injective
  have hdata := congrArg String.data h
  simp only [chapKey, String.data_append] at hdata
  exact String.ext (List.append_cancel_left hdata)

theorem scanNum_iff (cs : List Char) :
    scanNum cs = true ↔
      ∃ ds rest, cs = ds ++ '回' :: rest ∧ ds ≠ [] ∧
        ∀ c ∈ ds, isNumChar c = true := by
  induction cs with
  | nil =>
    constructor
    · intro h
      exact absurd h (by simp [scanNum])
    · rintro ⟨ds, rest, heq, hne, -⟩
      cases ds <;> simp_all
  | cons c t ih =>
    simp only [scanNum, Bool.and_eq_true, Bool.or_eq_true, beq_iff_eq]
    constructor
    · rintro ⟨hc, hd | hs⟩
      · cases t with
        | nil => simp at hd
        | cons x t' =>
          simp only [List.head?_cons, Option.some.injEq] at hd
          subst hd
          exact ⟨[c], t', rfl, by simp, by simp [hc]⟩
      · obtain ⟨ds, rest, heq, hne, hall⟩ := ih.mp hs
        refine ⟨c :: ds, rest, by simp [heq], by simp, ?_⟩
        intro x hx
        rcases List.mem_cons.mp hx with rfl | hx
        · exact hc
        · exact hall x hx
    · rintro ⟨ds, rest, heq, hne, hall⟩
      match ds, hne with
      | d :: ds', _ =>
        simp only [List.cons_append] at heq
        injection heq with h1 h2
        subst h1
        refine ⟨hall c (by simp), ?_⟩
        cases ds' with
        | nil =>
          left
          simp [h2]
        | cons d2 ds'' =>
          right
          refine ih.mpr ⟨d2 :: ds'', rest, h2, by simp, ?_⟩
          intro x hx
          exact hall x (List.mem_cons_of_mem _ hx)

theorem chapterMatch_iff (line : String) :
    chapterMatch line = true ↔
      ∃ ds rest, line.data = '第' :: ds ++ '回' :: rest ∧ ds ≠ [] ∧
        ∀ c ∈ ds, isNumChar c = true := by
  unfold chapterMatch
  match hm : line.data with
  | [] =>
    constructor
    · intro h
      exact absurd h (by simp)
    · rintro ⟨ds, rest, heq, -, -⟩
      simp at heq
  | c :: cs =>
    show (c == '第' && scanNum cs) = true ↔ _
    simp only [Bool.and_eq_true, beq_iff_eq, scanNum_iff]
    constructor
    · rintro ⟨rfl, ds, rest, heq, hne, hall⟩
      exact ⟨ds, rest, by simp [heq], hne, hall⟩
    · rintro ⟨ds, rest, heq, hne, hall⟩
      injection heq with h1 h2
      exact ⟨h1, ds, rest, h2, hne, hall⟩

theorem emitLine_blank (i : Nat) (flag : Bool) :
    emitLine i "" flag = ([], flag) := rfl

theorem emitLine_title (line : String) (flag : Bool) (h : line ≠ "") :
    emitLine 0 line flag
      = ([.para (bold line) .titleStyle none, .pageBreak], flag) := by
  simp [emitLine, h]

theorem emitLine_heading (i : Nat) (line : String) (flag : Bool) (hi : i ≠ 0)
    (h : line ≠ "") (hm : chapterMatch line = true) :
    emitLine i line flag
      = ((if flag then [Flowable.pageBreak] else []) ++
          [.para (bold line) .chapterStyle (some (line, chapKey i))], true) := by
  simp [emitLine, h, hi, hm]

theorem emitLine_body (i : Nat) (line : String) (flag : Bool) (hi : i ≠ 0)
    (h : line ≠ "") (hm : chapterMatch line = false) :
    emitLine i line flag = ([.para line .bodyStyle none, .spacer 1 6], flag) := by
  simp [emitLine, h, hi, hm]

theorem buildStoryAux_all_blank (lines : List String) :
    ∀ (i : Nat) (flag : Bool), (∀ l ∈ lines, l = "") →
      buildStoryAux i flag lines = [] := by
  induction lines with
  | nil => intro i flag _; rfl
  | cons l rest ih =>
    intro i flag h
    have hl : l = "" := h l (by simp)
    subst hl
    rw [buildStoryAux, emitLine_blank]
    exact ih (i + 1) flag (fun l hl => h l (by simp [hl]))

theorem isHeadingLine_pos (i : Nat) (l : String) (hi : i ≠ 0) (hbl : l ≠ "") :
    isHeadingLine i l = chapterMatch l := by
  simp [isHeadingLine, hi, hbl]

theorem isHeadingLine_blank (i : Nat) : isHeadingLine i "" = false := by
  simp [isHeadingLine]

theorem isHeadingLine_zero (l : String) : isHeadingLine 0 l = false := by
  simp [isHeadingLine]

theorem chapterEntries_append (a b : List Flowable) :
    chapterEntries (a ++ b) = chapterEntries a ++ chapterEntries b :=
  List.filterMap_append a b _

theorem chapterEntries_buildStoryAux (lines : List String) :
    ∀ (i : Nat) (flag : Bool), i ≠ 0 →
      chapterEntries (buildStoryAux i flag lines)
        = (headingsFrom i lines).map (fun p => (p.2, chapKey p.1)) := by
  induction lines with
  | nil => intro i flag _; rfl
  | cons l rest ih =>
    intro i flag hi
    rw [buildStoryAux, chapterEntries_append, headingsFrom]
    by_cases hbl : l = ""
    · subst hbl
      rw [emitLine_blank, isHeadingLine_blank]
      simpa [chapterEntries] using ih (i + 1) flag (by omega)
    · rw [isHeadingLine_pos i l hi hbl]
      by_cases hm : chapterMatch l = true
      · rw [emitLine_heading i l flag hi hbl hm, hm]
        have := ih (i + 1) true (by omega)
        cases flag <;> simp [chapterEntries] <;> exact this
      · rw [emitLine_body i l flag hi hbl (by simpa using hm)]
        rw [show chapterMatch l = false by simpa using hm]
        simpa [chapterEntries] using ih (i + 1) flag (by omega)

theorem chapterEntries_buildStory (lines : List String) :
    chapterEntries (buildStory lines)
      = (headingsFrom 0 lines).map (fun p => (p.2, chapKey p.1)) := by
  cases lines with
  | nil => rfl
  | cons l0 rest =>
    rw [buildStory, buildStoryAux, chapterEntries_append, headingsFrom,
      isHeadingLine_zero]
    by_cases hbl : l0 = ""
    · subst hbl
      rw [emitLine_blank]
      simpa [chapterEntries] using chapterEntries_buildStoryAux rest 1 false (by omega)
    · rw [emitLine_title l0 false hbl]
      simpa [chapterEntries] using chapterEntries_buildStoryAux rest 1 false (by omega)

theorem count_break_buildStoryAux (lines : List String) :
    ∀ (i : Nat) (flag : Bool), i ≠ 0 →
      (buildStoryAux i flag lines).count Flowable.pageBreak
        = (if flag then (headingsFrom i lines).length
           else (headingsFrom i lines).length - 1) := by
  induction lines with
  | nil => intro i flag hi; cases flag <;> rfl
  | cons l rest ih =>
    intro i flag hi
    rw [buildStoryAux, List.count_append, headingsFrom]
    by_cases hbl : l = ""
    · subst hbl
      rw [emitLine_blank, isHeadingLine_blank]
      simpa using ih (i + 1) flag (by omega)
    · rw [isHeadingLine_pos i l hi hbl]
      by_cases hm : chapterMatch l = true
      · rw [emitLine_heading i l flag hi hbl hm, hm]
        have := ih (i + 1) true (by omega)
        cases flag <;> simp [this, List.count_cons] <;> omega
      · rw [emitLine_body i l flag hi hbl (by simpa using hm),
          show chapterMatch l = false by simpa using hm]
        have := ih (i + 1) flag (by omega)
        cases flag <;> simpa [List.count_cons] using this

theorem count_break_buildStory (lines : List String) :
    (buildStory lines).count Flowable.pageBreak
      = titleBreakCount lines + ((headingsFrom 0 lines).length - 1) := by
  cases lines with
  | nil => rfl
  | cons l0 rest =>
    rw [buildStory, buildStoryAux, List.count_append, headingsFrom,
      isHeadingLine_zero, titleBreakCount]
    by_cases hbl : l0 = ""
    · subst hbl
      rw [emitLine_blank]
      simpa using count_break_buildStoryAux rest 1 false (by omega)
    · rw [emitLine_title l0 false hbl]
      have := count_break_buildStoryAux rest 1 false (by omega)
      simp [hbl, this, List.count_cons]

theorem headingsFrom_mem (lines : List String) :
    ∀ i : Nat, ∀ p ∈ headingsFrom i lines,
      i ≤ p.1 ∧ isHeadingLine p.1 p.2 = true := by
  induction lines with
  | nil => intro i p hp; simp [headingsFrom] at hp
  | cons l rest ih =>
    intro i p hp
    rw [headingsFrom] at hp
    rcases List.mem_append.mp hp with h | h
    · by_cases hl : isHeadingLine i l = true
      · simp only [hl, if_true, List.mem_singleton] at h
        subst h
        exact ⟨le_refl i, hl⟩
      · simp only [Bool.not_eq_true] at hl
        simp [hl] at h
    · have := ih (i + 1) p h
      exact ⟨by omega, this.2⟩

theorem headingsFrom_sorted (lines : List String) :
    ∀ i : Nat, ((headingsFrom i lines).map Prod.fst).Pairwise (· < ·) := by
  induction lines with
  | nil => intro i; simp [headingsFrom]
  | cons l rest ih =>
    intro i
    rw [headingsFrom]
    by_cases hl : isHeadingLine i l = true
    · simp only [hl, if_true, List.singleton_append, List.map_cons]
      refine List.Pairwise.cons ?_ (ih (i + 1))
      intro x hx
      obtain ⟨p, hp, rfl⟩ := List.mem_map.mp hx
      have := (headingsFrom_mem rest (i + 1) p hp).1
      omega
    · simp only [Bool.not_eq_true] at hl
      simpa [hl] using ih (i + 1)

theorem headingKeys_pairwise_ne (lines : List String) (i : Nat) :
    ((headingsFrom i lines).map (fun p => chapKey p.1)).Pairwise (· ≠ ·) := by
  have hs := headingsFrom_sorted lines i
  rw [List.pairwise_map] at hs ⊢
  refine hs.imp ?_
  intro p q h
  exact fun hk => absurd (chapKey_injective hk) (by omega)

theorem eraseKeys_append (a b : List Flowable) :
    eraseKeys (a ++ b) = eraseKeys a ++ eraseKeys b :=
  List.map_append eraseKey a b

theorem eraseKeys_filter_blank (lines : List String) :
    ∀ (i j : Nat) (flag : Bool), i ≠ 0 → j ≠ 0 →
      eraseKeys (buildStoryAux i flag lines)
        = eraseKeys (buildStoryAux j flag (lines.filter (fun l => l != ""))) := by
  induction lines with
  | nil => intro i j flag _ _; rfl
  | cons l rest ih =>
    intro i j flag hi hj
    rw [buildStoryAux, List.filter_cons]
    by_cases hbl : l = ""
    · subst hbl
      rw [emitLine_blank]
      simpa using ih (i + 1) j flag (by omega) hj
    · have hkeep : (l != "") = true := by simp [hbl]
      rw [hkeep, if_pos rfl]
      rw [buildStoryAux]
      rw [eraseKeys_append, eraseKeys_append]
      by_cases hm : chapterMatch l = true
      · rw [emitLine_heading i l flag hi hbl hm,
          emitLine_heading j l flag hj hbl hm]
        have := ih (i + 1) (j + 1) true (by omega) (by omega)
        cases flag <;> simp [eraseKeys, eraseKey] <;> exact this
      · rw [emitLine_body i l flag hi hbl (by simpa using hm),
          emitLine_body j l flag hj hbl (by simpa using hm)]
        have := ih (i + 1) (j + 1) flag (by omega) (by omega)
        simp only [eraseKeys] at this ⊢
        simp [this]

theorem append_eq_cons_split {α : Type} (c : List α) :
    ∀ (s a b : List α) (x : α), c ++ s = a ++ x :: b → x ∉ c →
      ∃ a', a = c ++ a' ∧ s = a' ++ x :: b := by
  induction c with
  | nil =>
    intro s a b x h _
    exact ⟨a, rfl, h⟩
  | cons y c' ih =>
    intro s a b x h hx
    cases a with
    | nil =>
      rw [List.nil_append] at h
      injection h with h1 _
      exact absurd (h1 ▸ List.mem_cons_self y c') hx
    | cons z a'' =>
      rw [List.cons_append, List.cons_append] at h
      injection h with h1 h2
      obtain ⟨a', ha, hs⟩ := ih s a'' b x h2 (fun hm => hx (List.mem_cons_of_mem _ hm))
      exact ⟨a', by simp [ha, h1], hs⟩

theorem getLast?_append_some {α : Type} (l1 l2 : List α) (x : α)
    (h : l2.getLast? = some x) : (l1 ++ l2).getLast? = some x := by
  rw [List.getLast?_append, h]
  rfl

theorem break_before_heading_aux (lines : List String) :
    ∀ (i : Nat) (flag : Bool), i ≠ 0 →
    ∀ (a b : List Flowable) (m : String) (e : Option (String × String)),
      buildStoryAux i flag lines = a ++ Flowable.para m .chapterStyle e :: b →
      (flag = true ∨ hasChapterPara a = true) →
      a.getLast? = some Flowable.pageBreak := by
  induction lines with
  | nil =>
    intro i flag hi a b m e h _
    exact absurd h.symm (by simp [buildStoryAux])
  | cons l rest ih =>
    intro i flag hi a b m e h hflag
    rw [buildStoryAux] at h
    by_cases hbl : l = ""
    · subst hbl
      rw [emitLine_blank] at h
      exact ih (i + 1) flag (by omega) a b m e (by simpa using h) hflag
    · by_cases hm : chapterMatch l = true
      · rw [emitLine_heading i l flag hi hbl hm] at h
        cases flag with
        | false =>
          simp only [Bool.false_eq_true, if_false, List.nil_append] at h
          cases a with
          | nil =>
            rcases hflag with hf | hf
            · exact absurd hf (by simp)
            · exact absurd hf (by simp [hasChapterPara])
          | cons q a'' =>
            rw [List.cons_append] at h
            injection h with h1 h2
            have hlast := ih (i + 1) true (by omega) a'' b m e h2 (Or.inl rfl)
            cases a'' with
            | nil => simp at hlast
            | cons x xs => rw [List.getLast?_cons_cons]; exact hlast
        | true =>
          simp only [if_true, List.cons_append, List.nil_append] at h
          cases a with
          | nil =>
            rw [List.nil_append] at h
            injection h with h1 _
            exact Flowable.noConfusion h1
          | cons q a1 =>
            rw [List.cons_append] at h
            injection h with h1 h2
            cases a1 with
            | nil =>
              rw [← h1]
              rfl
            | cons r a2 =>
              rw [List.cons_append] at h2
              injection h2 with h3 h4
              have hlast := ih (i + 1) true (by omega) a2 b m e h4 (Or.inl rfl)
              cases a2 with
              | nil => simp at hlast
              | cons x xs =>
                rw [List.getLast?_cons_cons, List.getLast?_cons_cons]
                exact hlast
      · rw [emitLine_body i l flag hi hbl (by simpa using hm)] at h
        have hx : Flowable.para m .chapterStyle e
            ∉ [Flowable.para l .bodyStyle none, Flowable.spacer 1 6] := by simp
        obtain ⟨a', ha, hs⟩ := append_eq_cons_split _ _ a b _ h hx
        have hstep : flag = true ∨ hasChapterPara a' = true := by
          rcases hflag with hf | hf
          · exact Or.inl hf
          · refine Or.inr ?_
            rw [ha] at hf
            simpa [hasChapterPara, isChapterPara] using hf
        have hlast := ih (i + 1) flag (by omega) a' b m e hs hstep
        rw [ha]
        exact getLast?_append_some _ _ _ hlast

theorem break_before_heading (lines : List String) (a b : List Flowable)
    (m : String) (e : Option (String × String))
    (h : buildStory lines = a ++ Flowable.para m .chapterStyle e :: b)
    (ha : hasChapterPara a = true) :
    a.getLast? = some Flowable.pageBreak := by
  cases lines with
  | nil => exact absurd h.symm (by simp [buildStory, buildStoryAux])
  | cons l0 rest =>
    rw [buildStory, buildStoryAux] at h
    by_cases hbl : l0 = ""
    · subst hbl
      rw [emitLine_blank] at h
      exact break_before_heading_aux rest 1 false (by omega) a b m e
        (by simpa using h) (Or.inr ha)
    · rw [emitLine_title l0 false hbl] at h
      have hx : Flowable.para m .chapterStyle e
          ∉ [Flowable.para (bold l0) .titleStyle none, Flowable.pageBreak] := by simp
      obtain ⟨a', ha', hs⟩ := append_eq_cons_split _ _ a b _ h hx
      have hcp : hasChapterPara a' = true := by
        rw [ha'] at ha
        simpa [hasChapterPara, isChapterPara] using ha
      have hlast := break_before_heading_aux rest 1 false (by omega) a' b m e hs
        (Or.inr hcp)
      rw [ha']
      exact getLast?_append_some _ _ _ hlast

theorem runPassOne_nil (s : CanvasSt) : runPassOne [] s = s := rfl

theorem runPassOne_cons (op : Pass1Op) (rest : List Pass1Op) (s : CanvasSt) :
    runPassOne (op :: rest) s = runPassOne rest (stepPass1 s op) := rfl

theorem stepPass1_trace (s : CanvasSt) (op : Pass1Op) :
    (stepPass1 s op).trace = s.trace := by
  cases op <;> rfl

theorem runPassOne_trace (ops : List Pass1Op) :
    ∀ s : CanvasSt, (runPassOne ops s).trace = s.trace := by
  induction ops with
  | nil => intro s; rfl
  | cons op rest ih =>
    intro s
    rw [runPassOne_cons, ih, stepPass1_trace]

theorem runPassOne_pageNumbers (ops : List Pass1Op) :
    ∀ s : CanvasSt,
      s.savedPageStates.map PageSt.pageNumber
          = List.range' 1 s.savedPageStates.length →
      s.pageNumber = s.savedPageStates.length + 1 →
      (runPassOne ops s).savedPageStates.map PageSt.pageNumber
          = List.range' 1 (runPassOne ops s).savedPageStates.length
        ∧ (runPassOne ops s).pageNumber
          = (runPassOne ops s).savedPageStates.length + 1 := by
  induction ops with
  | nil => intro s h1 h2; exact ⟨h1, h2⟩
  | cons op rest ih =>
    intro s h1 h2
    rw [runPassOne_cons]
    cases op with
    | opDraw d => exact ih (stepPass1 s (Pass1Op.opDraw d)) h1 h2
    | opBookmark k => exact ih (stepPass1 s (Pass1Op.opBookmark k)) h1 h2
    | opOutline t k l c => exact ih (stepPass1 s (Pass1Op.opOutline t k l c)) h1 h2
    | opShowPage =>
      refine ih _ ?_ ?_
      · simp only [stepPass1, showPage, List.map_append, List.length_append,
          List.map_cons, List.map_nil, List.length_cons, List.length_nil]
        rw [h1, h2, List.range'_concat]
        simp [Nat.add_comm]
      · simp only [stepPass1, showPage, List.length_append, List.length_cons,
          List.length_nil]
        omega

theorem segEntries_nil (buf : List BEntry) : segEntries buf [] = ([], buf) := rfl

theorem segEntries_show (buf : List BEntry) (rest : List Pass1Op) :
    segEntries buf (Pass1Op.opShowPage :: rest)
      = (buf :: (segEntries [] rest).1, (segEntries [] rest).2) := rfl

theorem segEntries_cons (buf : List BEntry) (op : Pass1Op) (rest : List Pass1Op)
    (h : op ≠ Pass1Op.opShowPage) :
    segEntries buf (op :: rest) = segEntries (buf ++ opEntries op) rest := by
  cases op
  · rfl
  · rfl
  · rfl
  · exact absurd rfl h

theorem runPassOne_segEntries (ops : List Pass1Op) :
    ∀ s : CanvasSt,
      (runPassOne ops s).savedPageStates.map PageSt.bookmarks
          = s.savedPageStates.map PageSt.bookmarks
            ++ (segEntries s.currentPageBookmarks ops).1
        ∧ (runPassOne ops s).currentPageBookmarks
          = (segEntries s.currentPageBookmarks ops).2 := by
  induction ops with
  | nil => intro s; simp [runPassOne_nil, segEntries_nil]
  | cons op rest ih =>
    intro s
    rw [runPassOne_cons]
    have hstep := ih (stepPass1 s op)
    cases op with
    | opDraw d =>
      rw [segEntries_cons _ _ _ (by simp)]
      simpa [stepPass1, drawOp, opEntries] using hstep
    | opBookmark k =>
      rw [segEntries_cons _ _ _ (by simp)]
      simpa [stepPass1, bookmarkPage, opEntries] using hstep
    | opOutline t k l c =>
      rw [segEntries_cons _ _ _ (by simp)]
      simpa [stepPass1, addOutlineEntry, opEntries] using hstep
    | opShowPage =>
      rw [segEntries_show]
      refine ⟨?_, ?_⟩
      · have h1 := hstep.1
        simp only [stepPass1, showPage, List.map_append, List.map_cons,
          List.map_nil] at h1 ⊢
        rw [h1]
        simp
      · exact hstep.2

theorem runPassOne_buffer_after_show (ops : List Pass1Op) (s : CanvasSt) :
    (runPassOne (ops ++ [Pass1Op.opShowPage]) s).currentPageBookmarks = [] := by
  rw [runPassOne, List.foldl_append]
  rfl

/-- All deferred entries contributed by a list of pass-1 calls, in order. -/
def opsEntries (ops : List Pass1Op) : List BEntry := (ops.map opEntries).flatten

theorem segEntries_total (ops : List Pass1Op) :
    ∀ buf : List BEntry,
      (segEntries buf ops).1.flatten ++ (segEntries buf ops).2
        = buf ++ opsEntries ops := by
  induction ops with
  | nil => intro buf; simp [segEntries_nil, opsEntries]
  | cons op rest ih =>
    intro buf
    cases op with
    | opShowPage =>
      rw [segEntries_show]
      have := ih []
      simp only [List.flatten_cons, List.append_assoc, this]
      simp [opsEntries, opEntries]
    | opDraw d =>
      rw [segEntries_cons _ _ _ (by simp), ih]
      simp [opsEntries, opEntries]
    | opBookmark k =>
      rw [segEntries_cons _ _ _ (by simp), ih]
      simp [opsEntries, opEntries]
    | opOutline t k l c =>
      rw [segEntries_cons _ _ _ (by simp), ih]
      simp [opsEntries, opEntries]

theorem saveLoop_trace (pages : List PageSt) :
    ∀ (count : Nat) (s : CanvasSt),
      (pages.foldl (savePage count) s).trace
        = s.trace ++ (pages.map (pageEmission count)).flatten := by
  induction pages with
  | nil => intro count s; simp
  | cons p rest ih =>
    intro count s
    rw [List.foldl_cons, ih]
    have hp : (savePage count s p).trace = s.trace ++ pageEmission count p := by
      by_cases h : 1 < p.pageNumber <;>
        simp [savePage, restoreState, drawPageNumber, superShowPage, pageEmission, h]
    rw [hp]
    simp

theorem canvasSave_trace (s : CanvasSt) :
    (canvasSave s).trace
      = s.trace
        ++ (s.savedPageStates.map (pageEmission s.savedPageStates.length)).flatten
        ++ [PrimOp.primSave] := by
  simp [canvasSave, saveLoop_trace]

theorem bookmarkEventsOf_append (a b : List PrimOp) :
    bookmarkEventsOf (a ++ b) = bookmarkEventsOf a ++ bookmarkEventsOf b := by
  simp [bookmarkEventsOf]

theorem bookmarkEventsOf_flatten (l : List (List PrimOp)) :
    bookmarkEventsOf l.flatten = (l.map bookmarkEventsOf).flatten := by
  induction l with
  | nil => rfl
  | cons x xs ih =>
    rw [List.flatten_cons, bookmarkEventsOf_append, ih, List.map_cons,
      List.flatten_cons]

theorem bookmarkEventsOf_replay (l : List BEntry) :
    bookmarkEventsOf (l.map replayEntry) = l.map replayEntry := by
  induction l with
  | nil => rfl
  | cons e t ih =>
    have h : bookmarkEventsOf (replayEntry e :: t.map replayEntry)
        = replayEntry e :: bookmarkEventsOf (t.map replayEntry) := by
      cases e <;> rfl
    rw [List.map_cons, h, ih]

theorem bookmarkEventsOf_pageEmission (count : Nat) (p : PageSt) :
    bookmarkEventsOf (pageEmission count p) = p.bookmarks.map replayEntry := by
  rw [pageEmission, bookmarkEventsOf_append, bookmarkEventsOf_replay]
  have h : bookmarkEventsOf [PrimOp.primShowPage (p.code ++
      (if 1 < p.pageNumber then
        [DrawOp.rule, DrawOp.stamp ((p.pageNumber : Int) - 1) ((count : Int) - 1)]
       else []))] = [] := rfl
  rw [h, List.append_nil]

/-- The deferred-entry pair generated for one chapter attribute pair by
`afterFlowable`: the bookmark, then the outline entry. -/
def entryPairOf (e : String × String) : List BEntry :=
  [BEntry.bookmark e.2, BEntry.outline e.1 e.2 0 true]

theorem opsEntries_append (a b : List Pass1Op) :
    opsEntries (a ++ b) = opsEntries a ++ opsEntries b := by
  simp [opsEntries]

theorem opsEntries_story (story : List Flowable) :
    opsEntries ((story.map flowableOps).flatten)
      = ((chapterEntries story).map entryPairOf).flatten := by
  induction story with
  | nil => rfl
  | cons f rest ih =>
    rw [List.map_cons, List.flatten_cons, opsEntries_append, ih]
    cases f with
    | para m st ch =>
      cases ch with
      | none => simp [flowableOps, opsEntries, opEntries, chapterEntries]
      | some e =>
        obtain ⟨t, k⟩ := e
        simp [flowableOps, opsEntries, opEntries, chapterEntries, entryPairOf]
    | spacer w h => simp [flowableOps, opsEntries, opEntries, chapterEntries]
    | pageBreak => simp [flowableOps, opsEntries, opEntries, chapterEntries]

theorem passOneOps_buffer (story : List Flowable) :
    (runPassOne (passOneOps story) initCanvas).currentPageBookmarks = [] := by
  by_cases h : needsFinalShow story = true
  · rw [passOneOps, h, if_pos rfl]
    exact runPassOne_buffer_after_show _ _
  · have h2 : needsFinalShow story = false := by
      revert h
      cases needsFinalShow story <;> simp
    have h' : story.isEmpty = true ∨ story.getLast? = some Flowable.pageBreak := by
      rcases Bool.eq_false_or_eq_true story.isEmpty with he | he
      · exact Or.inl he
      · right
        rw [needsFinalShow, he] at h2
        simpa using h2
    rcases h' with he | he
    · have : story = [] := List.isEmpty_iff.mp he
      subst this
      rfl
    · obtain ⟨ys, rfl⟩ := List.getLast?_eq_some_iff.mp he
      rw [passOneOps]
      rw [if_neg (by simp [h])]
      rw [List.map_append, List.flatten_append, List.append_nil]
      show (runPassOne ((ys.map flowableOps).flatten ++ [Pass1Op.opShowPage])
        initCanvas).currentPageBookmarks = []
      exact runPassOne_buffer_after_show _ _

theorem renderDoc_bookmarkEvents (lines : List String) :
    bookmarkEventsOf (renderDoc lines).trace
      = ((headingsFrom 0 lines).map (fun p =>
          [PrimOp.primBookmark (chapKey p.1),
           PrimOp.primOutline p.2 (chapKey p.1) 0 true])).flatten := by
  rw [renderDoc, canvasSave_trace, runPassOne_trace]
  show bookmarkEventsOf (([] : List PrimOp) ++ _ ++ [PrimOp.primSave]) = _
  rw [List.nil_append, bookmarkEventsOf_append]
  have hsave : bookmarkEventsOf [PrimOp.primSave] = [] := rfl
  rw [hsave, List.append_nil, bookmarkEventsOf_flatten, List.map_map]
  have hmap : (bookmarkEventsOf ∘
      pageEmission (runPassOne (passOneOps (buildStory lines))
        initCanvas).savedPageStates.length)
      = fun p => p.bookmarks.map replayEntry := by
    funext p
    exact bookmarkEventsOf_pageEmission _ p
  rw [hmap]
  have hseg := runPassOne_segEntries (passOneOps (buildStory lines)) initCanvas
  have hbuf : (segEntries [] (passOneOps (buildStory lines))).2 = [] := by
    have := hseg.2
    rw [passOneOps_buffer] at this
    exact this.symm
  have hflat : ((runPassOne (passOneOps (buildStory lines))
      initCanvas).savedPageStates.map PageSt.bookmarks).flatten
      = opsEntries (passOneOps (buildStory lines)) := by
    rw [hseg.1]
    show (([] : List (List BEntry)) ++ _).flatten = _
    rw [List.nil_append]
    have := segEntries_total (passOneOps (buildStory lines)) []
    rw [hbuf, List.append_nil, List.nil_append] at this
    exact this
  have hops : opsEntries (passOneOps (buildStory lines))
      = ((chapterEntries (buildStory lines)).map entryPairOf).flatten := by
    rw [passOneOps, opsEntries_append, opsEntries_story]
    have : opsEntries (if needsFinalShow (buildStory lines) then
        [Pass1Op.opShowPage] else []) = [] := by
      by_cases h : needsFinalShow (buildStory lines) = true <;> simp [h, opsEntries, opEntries]
    rw [this, List.append_nil]
  have hmm : (runPassOne (passOneOps (buildStory lines))
      initCanvas).savedPageStates.map (fun p => p.bookmarks.map replayEntry)
      = ((runPassOne (passOneOps (buildStory lines))
          initCanvas).savedPageStates.map PageSt.bookmarks).map
            (List.map replayEntry) := by
    rw [List.map_map]
    rfl
  rw [hmm, ← List.map_flatten, hflat, hops, chapterEntries_buildStory]
  rw [List.map_flatten, List.map_map, List.map_map]
  rfl

theorem pageNumber_le (l : List PageSt)
    (h : l.map PageSt.pageNumber = List.range' 1 l.length) :
    ∀ p ∈ l, 1 ≤ p.pageNumber ∧ p.pageNumber ≤ l.length := by
  intro p hp
  have hm : p.pageNumber ∈ List.range' 1 l.length := by
    rw [← h]
    exact List.mem_map_of_mem PageSt.pageNumber hp
  obtain ⟨i, hi, he⟩ := List.mem_range'.mp hm
  omega

theorem eligible_count (l : List PageSt)
    (h : l.map PageSt.pageNumber = List.range' 1 l.length) :
    (l.filter (fun p => 1 < p.pageNumber)).length = l.length - 1 := by
  cases l with
  | nil => rfl
  | cons p0 rest =>
    rw [List.map_cons, List.length_cons, List.range'_succ] at h
    injection h with h1 h2
    rw [List.filter_cons]
    have hp0 : ¬ (1 < p0.pageNumber) := by omega
    rw [if_neg (by simpa using hp0)]
    have hall : rest.filter (fun p => 1 < p.pageNumber) = rest := by
      rw [List.filter_eq_self]
      intro p hp
      have hm : p.pageNumber ∈ List.range' 2 rest.length := by
        rw [← h2]
        exact List.mem_map_of_mem PageSt.pageNumber hp
      obtain ⟨i, hi, he⟩ := List.mem_range'.mp hm
      simp only [decide_eq_true_eq]
      omega
    rw [hall]
    simp

/-- Claim C1, counterexample: for the input whose line 0 is blank and whose
first non-blank line is `"Text"` (at index 1), the story contains no Title
block at all — the first non-blank line is composed as Body with a spacer,
and is not alone on page 0 — because the title rule tests the raw index
`i == 0`, not "first non-blank". This falsifies "this holds regardless of
how many blank lines precede it". -/
theorem claim_C1_counterexample :
    buildStory ["", "Text"]
      = [Flowable.para "Text" .bodyStyle none, Flowable.spacer 1 6]
    ∧ pagesOf (buildStory ["", "Text"])
      = [[Flowable.para "Text" .bodyStyle none, Flowable.spacer 1 6]] := by
  exact ⟨by decide, by decide⟩

/-- Claim C1 (amended): if the line at index 0 is non-blank, it is composed
as the Title block (bold markup, title style), followed immediately by an
explicit page break, and it stands alone on page 0 — even if it matches
the chapter-heading pattern (no pattern test guards the `i == 0` branch).
If line 0 is blank, no Title is forced at all. -/
theorem claim_C1 (l0 : String) (rest : List String) (h : l0 ≠ "") :
    buildStory (l0 :: rest)
      = Flowable.para (bold l0) .titleStyle none :: Flowable.pageBreak ::
          buildStoryAux 1 false rest
    ∧ (pagesOf (buildStory (l0 :: rest))).head?
      = some [Flowable.para (bold l0) .titleStyle none] := by
  have hb : buildStory (l0 :: rest)
      = Flowable.para (bold l0) .titleStyle none :: Flowable.pageBreak ::
          buildStoryAux 1 false rest := by
    rw [buildStory, buildStoryAux, emitLine_title l0 false h]
    rfl
  refine ⟨hb, ?_⟩
  rw [hb]
  rfl

/-- Witness for C1 at the chapter-patterned title line `第1回`. -/
theorem claim_C1_witness :
    ("第1回" : String) ≠ ""
    ∧ (buildStory ["第1回", "abc"]
        = Flowable.para (bold "第1回") .titleStyle none :: Flowable.pageBreak ::
            buildStoryAux 1 false ["abc"]
      ∧ (pagesOf (buildStory ["第1回", "abc"])).head?
        = some [Flowable.para (bold "第1回") .titleStyle none]) :=
  ⟨by decide, claim_C1 "第1回" ["abc"] (by decide)⟩

/-- Claim C2: over every pass-1 call sequence, pass 2 commits the captured
pages in order; each eligible page (restored page number above 1) is
committed with its code extended by the separator rule and the stamp
`Page K of TOTAL` where `K` is its physical page number minus 1 and
`TOTAL` is the physical page count minus 1 (see `pageEmission`); the
captured page numbers are exactly 1..N, the eligible pages number N - 1
(`TOTAL` equals the eligible-page count), the stamped ordinals satisfy
`1 ≤ K ≤ TOTAL`, and the title page (page number 1) gets no footer. -/
theorem claim_C2 (ops : List Pass1Op) :
    (canvasSave (runPassOne ops initCanvas)).trace
        = ((runPassOne ops initCanvas).savedPageStates.map
            (pageEmission (runPassOne ops initCanvas).savedPageStates.length)).flatten
          ++ [PrimOp.primSave]
    ∧ (runPassOne ops initCanvas).savedPageStates.map PageSt.pageNumber
        = List.range' 1 (runPassOne ops initCanvas).savedPageStates.length
    ∧ ((runPassOne ops initCanvas).savedPageStates.filter
          (fun p => 1 < p.pageNumber)).length
        = (runPassOne ops initCanvas).savedPageStates.length - 1
    ∧ ∀ p ∈ (runPassOne ops initCanvas).savedPageStates,
        1 < p.pageNumber →
          (1 : Int) ≤ (p.pageNumber : Int) - 1
          ∧ (p.pageNumber : Int) - 1
            ≤ ((runPassOne ops initCanvas).savedPageStates.length : Int) - 1 := by
  have hpn := runPassOne_pageNumbers ops initCanvas rfl rfl
  refine ⟨?_, hpn.1, eligible_count _ hpn.1, ?_⟩
  · rw [canvasSave_trace, runPassOne_trace]
    rfl
  · intro p hp hgt
    have hle := pageNumber_le _ hpn.1 p hp
    constructor <;> omega

/-- Witness for C2 on a two-page pass 1, at the second captured page. -/
theorem claim_C2_witness :
    PageSt.mk 2 [] [] []
        ∈ (runPassOne [Pass1Op.opShowPage, Pass1Op.opShowPage]
            initCanvas).savedPageStates
    ∧ 1 < (PageSt.mk 2 [] [] []).pageNumber
    ∧ ((1 : Int) ≤ ((PageSt.mk 2 [] [] []).pageNumber : Int) - 1
      ∧ ((PageSt.mk 2 [] [] []).pageNumber : Int) - 1
        ≤ ((runPassOne [Pass1Op.opShowPage, Pass1Op.opShowPage]
            initCanvas).savedPageStates.length : Int) - 1) :=
  ⟨by decide, by decide,
    (claim_C2 [Pass1Op.opShowPage, Pass1Op.opShowPage]).2.2.2
      (PageSt.mk 2 [] [] []) (by decide) (by decide)⟩

/-- Claim C3: in every composed story, any chapter paragraph preceded by
an earlier chapter paragraph is immediately preceded by an explicit page
break; the total number of breaks is the title's break plus one per
heading except the first (so exactly one heading — the first — is exempt);
and the three-line P6 input composes to page 0 = Title only, page 1 =
first heading, page 2 = second heading. -/
theorem claim_C3 :
    (∀ (lines : List String) (a b : List Flowable) (m : String)
        (e : Option (String × String)),
      buildStory lines = a ++ Flowable.para m .chapterStyle e :: b →
      hasChapterPara a = true →
      a.getLast? = some Flowable.pageBreak)
    ∧ (∀ lines : List String,
        (buildStory lines).count Flowable.pageBreak
          = titleBreakCount lines + ((headingsFrom 0 lines).length - 1))
    ∧ pagesOf (buildStory ["Title line", "第1回 Text A", "第2回 Text B"])
      = [[Flowable.para (bold "Title line") .titleStyle none],
         [Flowable.para (bold "第1回 Text A") .chapterStyle
            (some ("第1回 Text A", "chap_1"))],
         [Flowable.para (bold "第2回 Text B") .chapterStyle
            (some ("第2回 Text B", "chap_2"))]] :=
  ⟨break_before_heading, count_break_buildStory, by decide⟩

/-- Witness for C3: the second heading of a two-heading document is
immediately preceded by a page break. -/
theorem claim_C3_witness :
    buildStory ["Title line", "第1回 Text A", "第2回 Text B"]
      = [Flowable.para (bold "Title line") .titleStyle none,
         Flowable.pageBreak,
         Flowable.para (bold "第1回 Text A") .chapterStyle
           (some ("第1回 Text A", "chap_1")),
         Flowable.pageBreak]
        ++ Flowable.para (bold "第2回 Text B") .chapterStyle
            (some ("第2回 Text B", "chap_2")) :: []
    ∧ hasChapterPara
        [Flowable.para (bold "Title line") .titleStyle none,
         Flowable.pageBreak,
         Flowable.para (bold "第1回 Text A") .chapterStyle
           (some ("第1回 Text A", "chap_1")),
         Flowable.pageBreak] = true
    ∧ ([Flowable.para (bold "Title line") .titleStyle none,
        Flowable.pageBreak,
        Flowable.para (bold "第1回 Text A") .chapterStyle
          (some ("第1回 Text A", "chap_1")),
        Flowable.pageBreak] : List Flowable).getLast?
      = some Flowable.pageBreak :=
  ⟨by decide, by decide,
    claim_C3.1 ["Title line", "第1回 Text A", "第2回 Text B"]
      [Flowable.para (bold "Title line") .titleStyle none,
       Flowable.pageBreak,
       Flowable.para (bold "第1回 Text A") .chapterStyle
         (some ("第1回 Text A", "chap_1")),
       Flowable.pageBreak]
      [] (bold "第2回 Text B") (some ("第2回 Text B", "chap_2"))
      (by decide) (by decide)⟩

/-- Claim C4, counterexample: deleting the leading blank line changes the
output — with the blank present the line `正文` is Body (index 1), with it
deleted the same line is the forced Title (index 0) — so blank lines do
affect the emitted content, falsifying "the output for an input with blank
lines equals the output with those blank lines deleted". -/
theorem claim_C4_counterexample :
    buildStory ["", "正文"] ≠ buildStory ["正文"] := by
  decide

/-- Claim C4 (amended): blank lines never produce a flowable; and when the
line at index 0 is non-blank, deleting blank lines elsewhere preserves the
story except for the document indices embedded in chapter bookmark ids
(`chap_{i}` is derived from the raw line index); a blank line at index 0
additionally changes which line is forced to Title. -/
theorem claim_C4 (l0 : String) (rest : List String) (h : l0 ≠ "") :
    (∀ (i : Nat) (flag : Bool), emitLine i "" flag = ([], flag))
    ∧ eraseKeys (buildStory (l0 :: rest))
      = eraseKeys (buildStory (l0 :: rest.filter (fun l => l != ""))) := by
  refine ⟨emitLine_blank, ?_⟩
  rw [buildStory, buildStory, buildStoryAux, buildStoryAux,
    emitLine_title l0 false h]
  rw [eraseKeys_append, eraseKeys_append]
  rw [eraseKeys_filter_blank rest 1 1 false (by omega) (by omega)]

/-- Witness for C4: a blank line between the title and a heading is
dropped and only the heading's id digit differs after deletion. -/
theorem claim_C4_witness :
    ("書名" : String) ≠ ""
    ∧ eraseKeys (buildStory ["書名", "", "第1回"])
      = eraseKeys (buildStory ["書名", "第1回"]) :=
  ⟨by decide, (claim_C4 "書名" ["", "第1回"] (by decide)).2⟩

/-- Claim C5 (spec-modelled driver): with zero non-blank lines the story
is empty, the `EmptyDocument` policy yields a single empty title page with
eligible TOTAL 0, and the two-pass canvas finishes with just the final
save event — no footer, no bookmark replay, no fault. -/
theorem claim_C5 (lines : List String) (h : ∀ l ∈ lines, l = "") :
    buildStory lines = []
    ∧ docPages (buildStory lines) = [[]]
    ∧ eligibleTotal (docPages (buildStory lines)) = 0
    ∧ renderDoc lines
      = { savedPageStates := [], currentPageBookmarks := [], pageNumber := 1,
          code := [], trace := [PrimOp.primSave] } := by
  have hb : buildStory lines = [] := buildStoryAux_all_blank lines 0 false h
  refine ⟨hb, by rw [hb]; rfl, by rw [hb]; rfl, ?_⟩
  rw [renderDoc, hb]
  rfl

/-- Witness for C5 on two blank lines. -/
theorem claim_C5_witness :
    (∀ l ∈ (["", ""] : List String), l = "")
    ∧ (buildStory ["", ""] = []
      ∧ docPages (buildStory ["", ""]) = [[]]
      ∧ eligibleTotal (docPages (buildStory ["", ""])) = 0
      ∧ renderDoc ["", ""]
        = { savedPageStates := [], currentPageBookmarks := [],
            pageNumber := 1, code := [], trace := [PrimOp.primSave] }) :=
  ⟨by decide, claim_C5 ["", ""] (by decide)⟩

/-- Claim C6, counterexample: the Devanagari digit `३` (U+0969) is a
Unicode decimal digit, so Python's `\d` accepts it and the code classifies
`第३回` as a chapter heading — but `३` is neither an Arabic digit `0`-`9`
nor one of the listed Chinese numerals, so the line does not match the
claim's pattern (`specChapterMatch`, written from the claim's words). -/
theorem claim_C6_counterexample :
    chapterMatch "第३回" = true
    ∧ specChapterMatch "第३回" = false
    ∧ emitLine 1 "第३回" false
      = ([Flowable.para (bold "第३回") .chapterStyle (some ("第३回", "chap_1"))],
         true) :=
  ⟨by decide, by decide, by decide⟩

/-- Claim C6 (amended): a line matches the chapter pattern iff it begins
with `第`, then one or more numerals — where a numeral is any Unicode
decimal digit (Python `\d`) or one of 一二三四五六七八九十百千万 — then
`回`; and every other non-blank line at a non-title index is emitted as a
Body paragraph with its spacer. The classifier is a total function, hence
deterministic. -/
theorem claim_C6 (line : String) :
    (chapterMatch line = true ↔
      ∃ ds rest, line.data = '第' :: ds ++ '回' :: rest ∧ ds ≠ [] ∧
        ∀ c ∈ ds, isNumChar c = true)
    ∧ (∀ (i : Nat) (flag : Bool), i ≠ 0 → line ≠ "" →
        chapterMatch line = false →
        emitLine i line flag
          = ([.para line .bodyStyle none, .spacer 1 6], flag)) :=
  ⟨chapterMatch_iff line,
    fun i flag hi h hm => emitLine_body i line flag hi h hm⟩

/-- Witness for C6: `abc` is not a heading and is emitted as Body. -/
theorem claim_C6_witness :
    (1 : Nat) ≠ 0
    ∧ ("abc" : String) ≠ ""
    ∧ chapterMatch "abc" = false
    ∧ emitLine 1 "abc" false
      = ([Flowable.para "abc" .bodyStyle none, Flowable.spacer 1 6], false) :=
  ⟨by decide, by decide, by decide,
    (claim_C6 "abc").2 1 false (by decide) (by decide) (by decide)⟩

/-- Claim C7: during pass 1 no event at all reaches the underlying canvas
(`bookmarkPage`/`addOutlineEntry` only append to the per-page buffer), and
during pass 2 each captured page's buffered entries are replayed in their
buffered order strictly before that page's commit (`pageEmission` places
the replayed entries before the page's single `primShowPage`, and the
trace is exactly the concatenation of the per-page emissions followed by
the final save). -/
theorem claim_C7 :
    (∀ ops : List Pass1Op, (runPassOne ops initCanvas).trace = [])
    ∧ (∀ s : CanvasSt,
        (canvasSave s).trace
          = s.trace
            ++ (s.savedPageStates.map
                (pageEmission s.savedPageStates.length)).flatten
            ++ [PrimOp.primSave]) :=
  ⟨fun ops => (runPassOne_trace ops initCanvas).trans rfl, canvasSave_trace⟩

/-- Claim C8: the bookmark/outline events of the rendered document are,
in document order, exactly one `primBookmark` and one `primOutline` pair
per heading line, with id `chap_{i}` for the heading's zero-based document
index `i`; the ids are pairwise distinct (so duplicate heading texts get
distinct ids), and every heading index is positive. -/
theorem claim_C8 (lines : List String) :
    bookmarkEventsOf (renderDoc lines).trace
      = ((headingsFrom 0 lines).map (fun p =>
          [PrimOp.primBookmark (chapKey p.1),
           PrimOp.primOutline p.2 (chapKey p.1) 0 true])).flatten
    ∧ ((headingsFrom 0 lines).map (fun p => chapKey p.1)).Pairwise (· ≠ ·)
    ∧ ∀ p ∈ headingsFrom 0 lines, 0 < p.1 := by
  refine ⟨renderDoc_bookmarkEvents lines, headingKeys_pairwise_ne lines 0, ?_⟩
  intro p hp
  have := (headingsFrom_mem lines 0 p hp).2
  simp only [isHeadingLine, Bool.and_eq_true, bne_iff_ne, ne_eq] at this
  omega

/-- Witness for C8 on a title plus one heading. -/
theorem claim_C8_witness :
    ((1 : Nat), ("第1回" : String)) ∈ headingsFrom 0 ["書名", "第1回"]
    ∧ 0 < ((1 : Nat), ("第1回" : String)).1 :=
  ⟨by decide, (claim_C8 ["書名", "第1回"]).2.2 (1, "第1回") (by decide)⟩

/-- Claim C9: a captured snapshot holds exactly the entries buffered for
its own page — the snapshots of a pass-1 run are, page by page, the
segments of the deferred-entry stream cut at each `showPage` (and the
snapshot record `PageSt` carries no copy of `_saved_page_states`, which
`showPage` pops from the dict before saving) — and the per-page buffer is
empty immediately after every capture, so no page's entries leak into a
later snapshot. -/
theorem claim_C9 :
    (∀ ops : List Pass1Op,
      (runPassOne ops initCanvas).savedPageStates.map PageSt.bookmarks
          = (segEntries [] ops).1
        ∧ (runPassOne ops initCanvas).currentPageBookmarks
          = (segEntries [] ops).2)
    ∧ (∀ (ops : List Pass1Op) (s : CanvasSt),
        (runPassOne (ops ++ [Pass1Op.opShowPage]) s).currentPageBookmarks
          = []) := by
  constructor
  · intro ops
    have h := runPassOne_segEntries ops initCanvas
    simpa using h
  · exact runPassOne_buffer_after_show

/-- Claim C10: a chapter-patterned line at index 0 is rendered as the
Title (bold, title style, followed by the title's page break); the
chapter entries of the story come only from the tail (no `chap_0` id ever
appears), and the first-heading page-break exemption transfers to the
tail: the tail is composed with the first-heading flag still unset, so
its breaks number one less than its headings. -/
theorem claim_C10 (l0 : String) (rest : List String) (h0 : l0 ≠ "")
    (hm : chapterMatch l0 = true) :
    buildStory (l0 :: rest)
      = Flowable.para (bold l0) .titleStyle none :: Flowable.pageBreak ::
          buildStoryAux 1 false rest
    ∧ chapterEntries (buildStory (l0 :: rest))
      = (headingsFrom 1 rest).map (fun p => (p.2, chapKey p.1))
    ∧ chapKey 0 ∉ (chapterEntries (buildStory (l0 :: rest))).map Prod.snd
    ∧ (buildStoryAux 1 false rest).count Flowable.pageBreak
      = (headingsFrom 1 rest).length - 1 := by
  have h2 : chapterEntries (buildStory (l0 :: rest))
      = (headingsFrom 1 rest).map (fun p => (p.2, chapKey p.1)) := by
    rw [chapterEntries_buildStory, headingsFrom, isHeadingLine_zero]
    rfl
  refine ⟨?_, h2, ?_, ?_⟩
  · rw [buildStory, buildStoryAux, emitLine_title l0 false h0]
    rfl
  · rw [h2]
    intro hmem
    rw [List.map_map, List.mem_map] at hmem
    obtain ⟨p, hp, hkey⟩ := hmem
    have h1 := (headingsFrom_mem rest 1 p hp).1
    have := chapKey_injective hkey.symm
    omega
  · have := count_break_buildStoryAux rest 1 false (by omega)
    simpa using this

/-- Witness for C10: the input whose title line itself matches the
chapter pattern, followed by one real heading. -/
theorem claim_C10_witness :
    ("第1回" : String) ≠ ""
    ∧ chapterMatch "第1回" = true
    ∧ (buildStoryAux 1 false ["第2回"]).count Flowable.pageBreak
      = (headingsFrom 1 ["第2回"]).length - 1 :=
  ⟨by decide, by decide, (claim_C10 "第1回" ["第2回"] (by decide) (by decide)).2.2.2⟩

end HanwenPDF
